import Mathlib

/-!
# aptutil: the `well` lifecycle manager and the `log` package

A shallow embedding of `well/default.go`, `well/sig_pipe.go` and `log/log.go`, with the
parts of Go's `strconv`, `strings`, `bufio`, `os` and `time` packages they call, followed
by the properties proved of them.

Go strings are byte sequences; Go's `int` is the 64-bit signed integer. The `Environment`
type is declared outside the files embedded here and is modelled from its specification.
-/

namespace Aptutil

/-! ## Definitions -/

/-- A Go string is an immutable sequence of bytes; a byte is a natural number below 256. -/
abbrev GoString := List Nat

/-- The bytes of an ASCII literal: one byte per character, its code point. -/
def ascii (s : String) : GoString := s.toList.map Char.toNat

/-- Conversion of a value to Go's 64-bit signed `int` / `int64` (two's complement wrap). -/
def wrapInt64 (x : Int) : Int := (x + 2 ^ 63) % 2 ^ 64 - 2 ^ 63

/-- The error kinds of `strconv.NumError`: `ErrSyntax` and `ErrRange`. -/
inductive NumError where
  | invalid
  | outOfRange
  deriving DecidableEq

/-- The value of `strconv.IntSize` on a 64-bit platform. -/
def intSize : Nat := 64

/-- The helper `lower(c)` of strconv: `c | ('x' - 'X')`. -/
def lower (c : Nat) : Nat := c ||| 32

/-- The digit loop of `strconv.ParseUint(s, 10, 0)`: `cutoff = maxUint64/10 + 1`,
`maxVal = 1<<bitSize - 1`, `n` is the uint64 accumulator. Base 10 is not base 0, so
an underscore is an ordinary invalid byte. -/
def parseUintLoop (maxVal : Nat) : Nat → GoString → Nat × Option NumError
  | n, [] => (n, none)
  | n, c :: cs =>
    let d : Option Nat :=
      if 48 ≤ c ∧ c ≤ 57 then some (c - 48)
      else if 97 ≤ lower c ∧ lower c ≤ 122 then some (lower c - 97 + 10)
      else none
    match d with
    | none => (0, some NumError.invalid)
    | some d =>
      if d ≥ 10 then (0, some NumError.invalid)
      else if n ≥ (2 ^ 64 - 1) / 10 + 1 then (maxVal, some NumError.outOfRange)
      else
        let n10 := n * 10 % 2 ^ 64
        let n1 := (n10 + d) % 2 ^ 64
        if n1 < n10 ∨ n1 > maxVal then (maxVal, some NumError.outOfRange)
        else parseUintLoop maxVal n1 cs

/-- Go's `strconv.ParseUint(s, 10, 0)`. -/
def ParseUint (s : GoString) : Nat × Option NumError :=
  if s = [] then (0, some NumError.invalid)
  else parseUintLoop (2 ^ intSize - 1) 0 s

/-- Conversion `int64(un)` of a uint64. -/
def toInt64 (un : Nat) : Int := wrapInt64 (un : Int)

/-- Go's `strconv.ParseInt(s, 10, 0)`. -/
def ParseInt (s : GoString) : Int × Option NumError :=
  match s with
  | [] => (0, some NumError.invalid)
  | c :: rest =>
    let signed : Bool × GoString :=
      if c = 43 then (false, rest) else if c = 45 then (true, rest) else (false, c :: rest)
    let neg := signed.1
    let r := ParseUint signed.2
    let un := r.1
    if r.2 = some NumError.invalid then (0, some NumError.invalid)
    else
      let cutoff : Nat := 2 ^ (intSize - 1)
      if neg = false ∧ un ≥ cutoff then (((cutoff - 1 : Nat) : Int), some NumError.outOfRange)
      else if neg = true ∧ un > cutoff then (-(cutoff : Int), some NumError.outOfRange)
      else
        let n := toInt64 un
        (if neg then wrapInt64 (-n) else n, none)

/-- The digit loop of the fast path of `strconv.Atoi`; `none` is the syntax error. -/
def atoiLoop : Int → GoString → Option Int
  | n, [] => some n
  | n, ch :: cs =>
    let ch := (ch + 256 - 48) % 256
    if ch > 9 then none else atoiLoop (wrapInt64 (n * 10 + (ch : Int))) cs

/-- Go's `strconv.Atoi`: the returned pair is `(value, err)`, `none` being the nil error. -/
def Atoi (s : GoString) : Int × Option NumError :=
  let sLen := s.length
  if (intSize = 32 ∧ 0 < sLen ∧ sLen < 10) ∨ (intSize = 64 ∧ 0 < sLen ∧ sLen < 19) then
    match s with
    | [] => (0, some NumError.invalid)
    | c0 :: rest =>
      let signed : Bool := c0 = 45 ∨ c0 = 43
      let digits := if signed then rest else c0 :: rest
      if signed ∧ digits.length < 1 then (0, some NumError.invalid)
      else
        match atoiLoop 0 digits with
        | none => (0, some NumError.invalid)
        | some n => (if c0 = 45 then wrapInt64 (-n) else n, none)
  else
    let r := ParseInt s
    (wrapInt64 r.1, r.2)

/-- The process environment: a variable is unset (`none`) or has a value. -/
abbrev Environ := String → Option GoString

/-- Go's `os.Getenv`: the value of the variable, the empty string when it is unset. -/
def Getenv (environ : Environ) (key : String) : GoString := (environ key).getD []

/-- Source: `cancellationDelaySecondsEnv` in well/default.go. -/
def cancellationDelaySecondsEnv : String := "CANCELLATION_DELAY_SECONDS"

/-- Source: `defaultCancellationDelaySeconds` in well/default.go. -/
def defaultCancellationDelaySeconds : Int := 5

/-- Source: `getDelaySecondsFromEnv` in well/default.go. -/
def getDelaySecondsFromEnv (environ : Environ) : Int :=
  let delayStr := Getenv environ cancellationDelaySecondsEnv
  if delayStr.length = 0 then defaultCancellationDelaySeconds
  else
    let r := Atoi delayStr
    if r.2 ≠ none then defaultCancellationDelaySeconds
    else if r.1 < 0 then 0
    else r.1

/-- An environment in which only `key` is set, to `v`. -/
def setenv (key : String) (v : GoString) : Environ := fun k => if k = key then some v else none


/-- An error value returned by the operating system or by a reader. -/
structure FileError where
  msg : String
  deriving DecidableEq

/-- Go's `strings.Split(s, sep)` for a separator of one byte: the pieces of `s` between
the occurrences of `sep`; a string without the separator is a single piece. -/
def Split (s : GoString) (sep : Nat) : List GoString :=
  match s with
  | [] => [[]]
  | c :: cs =>
    if c = sep then [] :: Split cs sep
    else
      match Split cs sep with
      | [] => [[c]]
      | f :: fs => (c :: f) :: fs

/-- Go's `strings.HasSuffix`:
`len(s) >= len(suffix) && s[len(s)-len(suffix):] == suffix`. -/
def HasSuffix (s suffix : GoString) : Bool :=
  decide (s.length ≥ suffix.length ∧ s.drop (s.length - suffix.length) = suffix)

/-- A `bufio.Scanner` over an opened file, seen through its methods: the tokens (lines
without their terminator) that successive calls of `Scan` deliver, each with the value
`Err()` has once that token has been delivered, and the value `Err()` has once `Scan` has
returned false. A file that is read to its end without failure has `none` everywhere. -/
structure Scanner where
  tokens : List (GoString × Option FileError)
  finalErr : Option FileError

/-- The scanner of a file whose lines are all read without any failure. -/
def Scanner.clean (lines : List GoString) : Scanner :=
  { tokens := lines.map (fun l => (l, none)), finalErr := none }

/-- The `for sc.Scan()` loop of `IsSystemdService` in well/sig_pipe.go. The result is the
value of `isService` and the value of `sc.Err()` when the loop is left, by `break` or
because `Scan` returned false. -/
def scanLoop : List (GoString × Option FileError) → Option FileError → Bool × Option FileError
  | [], finalErr => (false, finalErr)
  | (text, err) :: rest, finalErr =>
    let fields := Split text 58
    if fields.length < 3 then scanLoop rest finalErr
    else if fields.getD 1 [] ≠ ascii "name=systemd" then scanLoop rest finalErr
    else (HasSuffix (fields.getD 2 []) (ascii ".service"), err)

/-- What `IsSystemdService` reads from its surroundings: `runtime.GOOS`, the process
environment, and the outcome of `os.Open("/proc/self/cgroup")` with the scanner over the
opened file. -/
structure Platform where
  goos : String
  environ : Environ
  cgroup : Except FileError Scanner

/-- Source: `IsSystemdService` in well/sig_pipe.go. -/
def IsSystemdService (p : Platform) : Bool :=
  if p.goos ≠ "linux" then false
  else if (Getenv p.environ "JOURNAL_STREAM").length > 0 then true
  else
    match p.cgroup with
    | Except.error _ => false
    | Except.ok sc =>
      let r := scanLoop sc.tokens sc.finalErr
      if r.2 ≠ none then false else r.1

/-- A Go `error` value: `none` is nil, `some msg` an error with that message. -/
abbrev GoError := Option String

/-- Source: `errSignaled = errors.New("signaled")` in well/default.go. -/
def errSignaled : GoError := some "signaled"

/-- Modelled from the spec: the `Environment` type, whose declaration is not among the
source files. The fields are those of the spec's data model: whether `cancelFn` has been
invoked on `rootContext`, `storedError`, `cancelled`, `stopped` and `outstanding`;
`launched` lists the task functions that `Go` has started, oldest first. -/
structure Environment (τ : Type) where
  rootCancelled : Bool
  storedError : GoError
  cancelled : Bool
  stopped : Bool
  outstanding : Nat
  launched : List τ

/-- Modelled from the spec: `NewEnvironment`, which "initializes all counters to
zero/false". -/
def NewEnvironment (τ : Type) : Environment τ :=
  { rootCancelled := false, storedError := none, cancelled := false, stopped := false,
    outstanding := 0, launched := [] }

/-- Modelled from the spec: `doneSignal`, "signaled when
`(stopped‖cancelled) ∧ outstanding==0`". -/
def Environment.doneSignal {τ : Type} (e : Environment τ) : Bool :=
  (e.stopped || e.cancelled) && e.outstanding == 0

/-- Modelled from the spec: `Environment.Cancel`, which "atomically transitions `cancelled`
from false to true at most once; on the transition, stores `err` and invokes `cancelFn` on
the root context. Returns true only to the caller that performed the transition". -/
def Environment.Cancel {τ : Type} (e : Environment τ) (err : GoError) : Bool × Environment τ :=
  if e.cancelled then (false, e)
  else (true, { e with cancelled := true, storedError := err, rootCancelled := true })

/-- Modelled from the spec: `Environment.Stop`, which "atomically transitions `stopped`
from false to true; does not cancel the root context". -/
def Environment.Stop {τ : Type} (e : Environment τ) : Environment τ :=
  { e with stopped := true }

/-- Modelled from the spec: `Environment.Go`, which "if `stopped` or `cancelled` is already
true, does nothing. Otherwise increments `outstanding`, then asynchronously starts
`taskFn`". -/
def Environment.Go {τ : Type} (e : Environment τ) (f : τ) : Environment τ :=
  if e.stopped || e.cancelled then e
  else { e with outstanding := e.outstanding + 1, launched := e.launched ++ [f] }

/-- Modelled from the spec: what happens "when `taskFn` returns": "`outstanding` is
decremented, if the returned error is non-nil, `Cancel(err)` is invoked immediately". -/
def Environment.taskReturn {τ : Type} (e : Environment τ) (err : GoError) : Environment τ :=
  let e1 := { e with outstanding := e.outstanding - 1 }
  match err with
  | none => e1
  | some msg => (e1.Cancel (some msg)).2

/-- The outcome of a call of `Wait` in a given state: still blocked, or returned. -/
inductive WaitResult where
  | blocked
  | returned (err : GoError)
  deriving DecidableEq

/-- Modelled from the spec: `Environment.Wait`, which "blocks the calling thread of control
until `doneSignal` is raised, then returns `storedError`". -/
def Environment.Wait {τ : Type} (e : Environment τ) : WaitResult :=
  if e.doneSignal then WaitResult.returned e.storedError else WaitResult.blocked

/-- Source: `Stop` in well/default.go, which delegates to the global environment. -/
def Stop {τ : Type} (defaultEnv : Environment τ) : Environment τ := defaultEnv.Stop

/-- Source: `Cancel` in well/default.go, which delegates to the global environment. -/
def Cancel {τ : Type} (defaultEnv : Environment τ) (err : GoError) : Bool × Environment τ :=
  defaultEnv.Cancel err

/-- Source: `Wait` in well/default.go, which delegates to the global environment. -/
def Wait {τ : Type} (defaultEnv : Environment τ) : WaitResult := defaultEnv.Wait

/-- Source: `Go` in well/default.go, which delegates to the global environment. -/
def Go {τ : Type} (defaultEnv : Environment τ) (f : τ) : Environment τ := defaultEnv.Go f

/-- The events that act on the global environment: the four package-level calls and the
return of a task function started by `Go`. -/
inductive Event (τ : Type) where
  | go (f : τ)
  | stop
  | cancel (err : GoError)
  | taskReturn (err : GoError)

/-- The environment after one event. -/
def Event.apply {τ : Type} (e : Environment τ) : Event τ → Environment τ
  | Event.go f => Go e f
  | Event.stop => Stop e
  | Event.cancel err => (Cancel e err).2
  | Event.taskReturn err => e.taskReturn err

/-- The environment after a sequence of events, in their order of arrival. -/
def runEvents {τ : Type} (e : Environment τ) (evs : List (Event τ)) : Environment τ :=
  evs.foldl Event.apply e

/-- A sequence of `Cancel` calls in their order of arrival: the value each call returns and
the environment after the last one. -/
def cancelAll {τ : Type} (e : Environment τ) : List GoError → List Bool × Environment τ
  | [] => ([], e)
  | err :: errs =>
    let r := Cancel e err
    let rs := cancelAll r.2 errs
    (r.1 :: rs.1, rs.2)

/-- The value of `time.Second`, in nanoseconds. -/
def Second : Int := 1000000000

/-- Go's `time.Sleep(d)` on a clock counting nanoseconds: the goroutine resumes `d` later;
"a negative or zero duration causes Sleep to return immediately". -/
def Sleep (d : Int) (now : Int) : Int := if d ≤ 0 then now else now + d

/-- The duration `time.Duration(delay) * time.Second` that `handleSignal` passes to
`time.Sleep`: a product of 64-bit signed integers. -/
def sleepDuration (delay : Int) : Int := wrapInt64 (wrapInt64 delay * Second)

/-- Source: the goroutine of `handleSignal` in well/default.go, from the moment `now` at
which a signal is received from the channel: the moment at which `env.Cancel(errSignaled)`
is called, and the result of that call. -/
def handleSignal {τ : Type} (environ : Environ) (now : Int) (env : Environment τ) :
    Int × (Bool × Environment τ) :=
  let delay := getDelaySecondsFromEnv environ
  let woken := Sleep (sleepDuration delay) now
  (woken, env.Cancel errSignaled)

/-- The methods of the `Logger` interface of log/log.go. -/
inductive Sink where
  | WarnS
  | ErrorS
  | DebugS
  | InfoS
  deriving DecidableEq

/-- A value of Go's `any` as the logging functions handle it: a string or another value. -/
inductive AnyVal (α : Type) where
  | str (s : String)
  | val (a : α)
  deriving DecidableEq

/-- The configured `Logger`, seen through the calls made on it: each call is the method
invoked and the variadic arguments it received, oldest first. -/
abbrev Logger (α : Type) := List (Sink × List (AnyVal α))

/-- Source: `get` in log/log.go. The slice taken from the pool has length zero (`put`
stores `v[:0]`, `pool.New` makes an empty slice); `args` lists the entries of the map in
the order in which the `range` loop visits them. -/
def get {α : Type} (msg : String) (args : List (String × α)) : List (AnyVal α) :=
  args.foldl (fun v kv => v ++ [AnyVal.str kv.1, AnyVal.val kv.2])
    ([] ++ [AnyVal.str "message", AnyVal.str msg])

/-- Source: `Error` in log/log.go. -/
def Error {α : Type} (Log : Logger α) (msg : String) (args : List (String × α)) : Logger α :=
  let v := get msg args
  Log ++ [(Sink.ErrorS, v)]

/-- Source: `Warn` in log/log.go. -/
def Warn {α : Type} (Log : Logger α) (msg : String) (args : List (String × α)) : Logger α :=
  let v := get msg args
  Log ++ [(Sink.DebugS, v)]

/-- Source: `Debug` in log/log.go. -/
def Debug {α : Type} (Log : Logger α) (msg : String) (args : List (String × α)) : Logger α :=
  let v := get msg args
  Log ++ [(Sink.DebugS, v)]

/-- Source: `Info` in log/log.go. -/
def Info {α : Type} (Log : Logger α) (msg : String) (args : List (String × α)) : Logger α :=
  let v := get msg args
  Log ++ [(Sink.InfoS, v)]

/-- The calls that a logger has received on one of its methods. -/
def received {α : Type} (Log : Logger α) (s : Sink) : List (List (AnyVal α)) :=
  (Log.filter (fun c => c.1 = s)).map (fun c => c.2)

/-! ## Predicates and inputs used in the statements -/

/-- The bytes `'0'..'9'`. -/
def isDigit (c : Nat) : Prop := 48 ≤ c ∧ c ≤ 57

instance isDigitDecidable (c : Nat) : Decidable (isDigit c) := by
  unfold isDigit
  infer_instance

/-- The number a run of decimal digits denotes, continuing from the value `n` of the digits before it. -/
def valFrom (n : Nat) (ds : GoString) : Nat := ds.foldl (fun a c => a * 10 + (c - 48)) n

/-- The non-negative integer a string of decimal digits denotes. -/
def decimalValue (ds : GoString) : Nat := valFrom 0 ds

/-- The strings that are not an optional sign followed by one or more decimal digits. -/
def malformed (s : GoString) : Prop :=
  match s with
  | [] => True
  | c0 :: rest =>
    if c0 = 45 ∨ c0 = 43 then rest = [] ∨ ∃ c ∈ rest, ¬ isDigit c
    else ∃ c ∈ c0 :: rest, ¬ isDigit c

/-- A line that ends the scan loop: at least three colon-separated fields, the second
being "name=systemd". -/
def isSystemdLine (text : GoString) : Bool :=
  match Split text 58 with
  | _ :: f1 :: _ :: _ => decide (f1 = ascii "name=systemd")
  | _ => false

/-- The third colon-separated field of the line exists and ends with ".service". -/
def thirdFieldIsService (text : GoString) : Bool :=
  match Split text 58 with
  | _ :: _ :: f2 :: _ => HasSuffix f2 (ascii ".service")
  | _ => false

/-- The lines the supervisor-detection sentence of the spec describes: the second field
equals "name=systemd" and the third field ends with ".service". -/
def isServiceLine (text : GoString) : Bool :=
  match Split text 58 with
  | _ :: f1 :: f2 :: _ => decide (f1 = ascii "name=systemd") && HasSuffix f2 (ascii ".service")
  | _ => false

/-- A Linux process without `JOURNAL_STREAM` whose cgroup file has the given lines and is
read without failure. -/
def linuxWithCgroup (lines : List GoString) : Platform :=
  { goos := "linux"
    environ := fun _ => none
    cgroup := Except.ok (Scanner.clean lines) }

/-- A Linux process without `JOURNAL_STREAM` whose cgroup file cannot be opened. -/
def missingCgroup : Platform :=
  { goos := "linux"
    environ := fun _ => none
    cgroup := Except.error { msg := "open /proc/self/cgroup: no such file or directory" } }

/-- A Linux process without `JOURNAL_STREAM` whose scanner fails while it delivers the
line "4:name=systemd:/system.slice/foo.service". -/
def failingCgroup : Platform :=
  { goos := "linux"
    environ := fun _ => none
    cgroup := Except.ok
      { tokens := [] ++ (ascii "4:name=systemd:/system.slice/foo.service",
                    some { msg := "read /proc/self/cgroup: input/output error" }) :: []
        finalErr := some { msg := "read /proc/self/cgroup: input/output error" } } }

/-- The flags and the stored error that no event changes once `Cancel` has succeeded. -/
def cancelledWith {τ : Type} (e : Environment τ) (err : GoError) : Prop :=
  e.cancelled = true ∧ e.storedError = err

/-- The environment refuses new tasks: `stopped` or `cancelled` is set. -/
def closed {τ : Type} (e : Environment τ) : Prop := e.stopped = true ∨ e.cancelled = true

/-! ## Theorems -/

theorem valFrom_cons (n c : Nat) (cs : GoString) :
    valFrom n (c :: cs) = valFrom (n * 10 + (c - 48)) cs := rfl

theorem le_valFrom (ds : GoString) : ∀ n, n ≤ valFrom n ds := by
  induction ds with
  | nil => intro n; exact Nat.le_refl _
  | cons c cs ih =>
    intro n
    rw [valFrom_cons]
    have := ih (n * 10 + (c - 48))
    omega

theorem wrapInt64_of_range (x : Int) (h0 : -(2 ^ 63) ≤ x) (h1 : x < 2 ^ 63) : wrapInt64 x = x := by
  unfold wrapInt64
  have : (x + 2 ^ 63) % 2 ^ 64 = x + 2 ^ 63 := Int.emod_eq_of_lt (by omega) (by omega)
  omega

theorem atoiLoop_digits (ds : GoString) : ∀ n : Nat, (∀ c ∈ ds, isDigit c) →
    valFrom n ds < 2 ^ 63 → atoiLoop (n : Int) ds = some ((valFrom n ds : Nat) : Int) := by
  induction ds with
  | nil => intro n _ _; rfl
  | cons c cs ih =>
    intro n hd hv
    have hc : isDigit c := hd c (List.mem_cons_self _ _)
    unfold isDigit at hc
    rw [valFrom_cons] at hv ⊢
    have hle := le_valFrom cs (n * 10 + (c - 48))
    have hch : (c + 256 - 48) % 256 = c - 48 := by omega
    unfold atoiLoop
    simp only [hch]
    have h9 : ¬ (c - 48 > 9) := by omega
    rw [if_neg h9]
    have hw : wrapInt64 ((n : Int) * 10 + ((c - 48 : Nat) : Int)) = ((n * 10 + (c - 48) : Nat) : Int) := by
      rw [wrapInt64_of_range]
      · push_cast; rfl
      · have : (0 : Int) ≤ (n : Int) * 10 + ((c - 48 : Nat) : Int) := by positivity
        omega
      · have : ((n * 10 + (c - 48) : Nat) : Int) < 2 ^ 63 := by exact_mod_cast (by omega : n * 10 + (c - 48) < 2 ^ 63)
        push_cast at this
        exact this
    rw [hw]
    exact ih _ (fun x hx => hd x (List.mem_cons_of_mem _ hx)) hv

theorem parseUintLoop_digits (ds : GoString) : ∀ n : Nat, n < 2 ^ 64 → (∀ c ∈ ds, isDigit c) →
    parseUintLoop (2 ^ 64 - 1) n ds =
      if valFrom n ds < 2 ^ 64 then (valFrom n ds, none) else (2 ^ 64 - 1, some NumError.outOfRange) := by
  induction ds with
  | nil =>
    intro n hn _
    show (n, none) = if n < 2 ^ 64 then (n, none) else (2 ^ 64 - 1, some NumError.outOfRange)
    rw [if_pos hn]
  | cons c cs ih =>
    intro n hn hd
    have hc : isDigit c := hd c (List.mem_cons_self _ _)
    unfold isDigit at hc
    rw [valFrom_cons]
    have hle := le_valFrom cs (n * 10 + (c - 48))
    unfold parseUintLoop
    simp only [hc, and_self, if_true]
    have h10 : ¬ (c - 48 ≥ 10) := by omega
    simp only [h10, if_false]
    by_cases hcut : n ≥ (2 ^ 64 - 1) / 10 + 1
    · rw [if_pos hcut]
      have : ¬ valFrom (n * 10 + (c - 48)) cs < 2 ^ 64 := by
        norm_num at hcut ⊢; omega
      rw [if_neg this]
    · rw [if_neg hcut]
      have hn10 : n * 10 < 2 ^ 64 := by norm_num at hcut ⊢; omega
      have e10 : n * 10 % 2 ^ 64 = n * 10 := Nat.mod_eq_of_lt hn10
      simp only [e10]
      by_cases hov : n * 10 + (c - 48) < 2 ^ 64
      · have e1 : (n * 10 + (c - 48)) % 2 ^ 64 = n * 10 + (c - 48) := Nat.mod_eq_of_lt hov
        simp only [e1]
        have : ¬ (n * 10 + (c - 48) < n * 10 ∨ n * 10 + (c - 48) > 2 ^ 64 - 1) := by omega
        rw [if_neg this]
        exact ih _ hov (fun x hx => hd x (List.mem_cons_of_mem _ hx))
      · have e1 : (n * 10 + (c - 48)) % 2 ^ 64 < n * 10 := by omega
        have : ((n * 10 + (c - 48)) % 2 ^ 64 < n * 10 ∨ (n * 10 + (c - 48)) % 2 ^ 64 > 2 ^ 64 - 1) := Or.inl e1
        rw [if_pos this]
        have : ¬ valFrom (n * 10 + (c - 48)) cs < 2 ^ 64 := by omega
        rw [if_neg this]

theorem ParseUint_digits (ds : GoString) (hne : ds ≠ []) (hd : ∀ c ∈ ds, isDigit c) :
    ParseUint ds =
      if decimalValue ds < 2 ^ 64 then (decimalValue ds, none)
      else (2 ^ 64 - 1, some NumError.outOfRange) := by
  unfold ParseUint
  rw [if_neg hne]
  exact parseUintLoop_digits ds 0 (by norm_num) hd

theorem Atoi_digits (ds : GoString) (hne : ds ≠ []) (hd : ∀ c ∈ ds, isDigit c)
    (hv : decimalValue ds < 2 ^ 63) : Atoi ds = ((decimalValue ds : Int), none) := by
  obtain ⟨c0, rest, rfl⟩ := List.exists_cons_of_ne_nil hne
  have hc : isDigit c0 := hd c0 (List.mem_cons_self _ _)
  unfold isDigit at hc
  have h45 : c0 ≠ 45 := by omega
  have h43 : c0 ≠ 43 := by omega
  have hwrap : wrapInt64 ((decimalValue (c0 :: rest) : Nat) : Int) = (decimalValue (c0 :: rest) : Int) :=
    wrapInt64_of_range _ (by have : (0:Int) ≤ (decimalValue (c0 :: rest) : Int) := by positivity
                             omega) (by exact_mod_cast hv)
  unfold Atoi
  by_cases hlen : (intSize = 32 ∧ 0 < (c0 :: rest).length ∧ (c0 :: rest).length < 10) ∨
      (intSize = 64 ∧ 0 < (c0 :: rest).length ∧ (c0 :: rest).length < 19)
  · simp only [hlen, if_true]
    have hloop := atoiLoop_digits (c0 :: rest) 0 hd hv
    simp only [h45, h43, or_self, decide_False, Bool.false_eq_true, if_false, false_and]
    rw [show ((0 : Nat) : Int) = 0 from rfl] at hloop
    rw [hloop]
    rfl
  · simp only [hlen, if_false]
    unfold ParseInt
    simp only [h45, h43, if_false]
    rw [ParseUint_digits _ hne hd, if_pos (show decimalValue (c0 :: rest) < 2 ^ 64 by omega)]
    have hcut : ¬ (decimalValue (c0 :: rest) ≥ 2 ^ (intSize - 1)) := by
      show ¬ (decimalValue (c0 :: rest) ≥ 2 ^ 63)
      omega
    simp [hcut, toInt64, hwrap]

theorem valFrom_lt_pow (ds : GoString) : ∀ n, (∀ c ∈ ds, isDigit c) →
    valFrom n ds + 1 ≤ (n + 1) * 10 ^ ds.length := by
  induction ds with
  | nil => intro n _; simp [valFrom]
  | cons c cs ih =>
    intro n hd
    have hc : isDigit c := hd c (List.mem_cons_self _ _)
    unfold isDigit at hc
    rw [valFrom_cons]
    have h1 := ih (n * 10 + (c - 48)) (fun x hx => hd x (List.mem_cons_of_mem _ hx))
    have h2 : (n * 10 + (c - 48) + 1) * 10 ^ cs.length ≤ ((n + 1) * 10) * 10 ^ cs.length :=
      Nat.mul_le_mul_right _ (by omega)
    have h3 : (n + 1) * 10 ^ (c :: cs).length = ((n + 1) * 10) * 10 ^ cs.length := by
      rw [List.length_cons, pow_succ]; ring
    omega

theorem decimalValue_lt_of_short (ds : GoString) (hd : ∀ c ∈ ds, isDigit c)
    (hlen : ds.length ≤ 18) : decimalValue ds < 10 ^ 18 := by
  have h := valFrom_lt_pow ds 0 hd
  have hp : 10 ^ ds.length ≤ 10 ^ 18 := Nat.pow_le_pow_right (by norm_num) hlen
  unfold decimalValue
  omega

theorem Atoi_neg_digits (ds : GoString) (hne : ds ≠ []) (hd : ∀ c ∈ ds, isDigit c)
    (hv : decimalValue ds ≤ 2 ^ 63) : Atoi (45 :: ds) = (-(decimalValue ds : Int), none) := by
  have hpos : (0 : Int) ≤ (decimalValue ds : Int) := by positivity
  have hvI : (decimalValue ds : Int) ≤ 2 ^ 63 := by exact_mod_cast hv
  have hlenpos : 0 < ds.length := List.length_pos.mpr hne
  unfold Atoi
  by_cases hlen : (intSize = 32 ∧ 0 < (45 :: ds).length ∧ (45 :: ds).length < 10) ∨
      (intSize = 64 ∧ 0 < (45 :: ds).length ∧ (45 :: ds).length < 19)
  · simp only [hlen, if_true]
    have hshort : ds.length ≤ 18 := by
      rcases hlen with h | h
      · exact absurd h.1 (by decide)
      · have := h.2.2; simp only [List.length_cons] at this; omega
    have hlt := decimalValue_lt_of_short ds hd hshort
    have hloop := atoiLoop_digits ds 0 hd (by unfold decimalValue at hlt; omega)
    rw [show ((0 : Nat) : Int) = 0 from rfl] at hloop
    have h1 : ¬ (ds.length < 1) := by omega
    simp only [true_or, decide_True, if_true, h1, and_false, if_false, hloop]
    have : wrapInt64 (-((valFrom 0 ds : Nat) : Int)) = -((decimalValue ds : Nat) : Int) := by
      rw [wrapInt64_of_range]
      · rfl
      · have : ((valFrom 0 ds : Nat) : Int) = (decimalValue ds : Int) := rfl
        omega
      · have : ((valFrom 0 ds : Nat) : Int) = (decimalValue ds : Int) := rfl
        omega
    rw [this]
  · simp only [hlen, if_false]
    unfold ParseInt
    simp only [show (45 : Nat) ≠ 43 by decide, if_false, if_true]
    rw [ParseUint_digits _ hne hd, if_pos (show decimalValue ds < 2 ^ 64 by omega)]
    have hcut : ¬ (decimalValue ds > 2 ^ (intSize - 1)) := by
      show ¬ (decimalValue ds > 2 ^ 63)
      omega
    simp only [hcut, and_false, false_and, if_false, if_true, reduceCtorEq, Bool.true_eq_false]
    simp only [toInt64, wrapInt64, Prod.mk.injEq, and_true]
    omega

theorem not_fast_of_big (c : Nat) (ds : GoString) (hd : ∀ c ∈ ds, isDigit c)
    (hv : 10 ^ 18 ≤ decimalValue ds) :
    ¬ ((intSize = 32 ∧ 0 < (c :: ds).length ∧ (c :: ds).length < 10) ∨
      (intSize = 64 ∧ 0 < (c :: ds).length ∧ (c :: ds).length < 19)) := by
  intro hlen
  have hshort : ds.length ≤ 18 := by
    rcases hlen with h | h
    · exact absurd h.1 (by decide)
    · have := h.2.2; simp only [List.length_cons] at this; omega
  have := decimalValue_lt_of_short ds hd hshort
  omega

theorem Atoi_neg_overflow (ds : GoString) (hne : ds ≠ []) (hd : ∀ c ∈ ds, isDigit c)
    (hv : 2 ^ 63 < decimalValue ds) : (Atoi (45 :: ds)).2 = some NumError.outOfRange := by
  have hlen := not_fast_of_big 45 ds hd (by omega)
  unfold Atoi
  simp only [hlen, if_false]
  unfold ParseInt
  simp only [show (45 : Nat) ≠ 43 by decide, if_false, if_true]
  rw [ParseUint_digits _ hne hd]
  by_cases h64 : decimalValue ds < 2 ^ 64
  · rw [if_pos h64]
    have hcut : decimalValue ds > 2 ^ (intSize - 1) := hv
    simp only [hcut, and_true, and_false, false_and, if_false, if_true, reduceCtorEq,
      Bool.true_eq_false]
  · rw [if_neg h64]
    have hcut : 2 ^ 64 - 1 > 2 ^ (intSize - 1) := by
      show 2 ^ 64 - 1 > 2 ^ 63
      norm_num
    simp only [hcut, and_true, and_false, false_and, if_false, if_true, reduceCtorEq,
      Bool.true_eq_false]
    simp

theorem atoiLoop_bad (ds : GoString) : ∀ n : Int, (∀ c ∈ ds, c < 256) →
    (∃ c ∈ ds, ¬ isDigit c) → atoiLoop n ds = none := by
  induction ds with
  | nil => intro n _ h; obtain ⟨c, hc, _⟩ := h; cases hc
  | cons c cs ih =>
    intro n hb hbad
    have hc256 : c < 256 := hb c (List.mem_cons_self _ _)
    unfold atoiLoop
    by_cases hc : isDigit c
    · unfold isDigit at hc
      have h9 : ¬ ((c + 256 - 48) % 256 > 9) := by omega
      simp only [h9, if_false]
      apply ih _ (fun x hx => hb x (List.mem_cons_of_mem _ hx))
      obtain ⟨x, hx, hxd⟩ := hbad
      rcases List.mem_cons.mp hx with rfl | hx
      · exact absurd (show isDigit x from hc) hxd
      · exact ⟨x, hx, hxd⟩
    · unfold isDigit at hc
      have h9 : (c + 256 - 48) % 256 > 9 := by omega
      simp only [h9, if_true]

theorem parseUintLoop_bad (maxVal : Nat) (ds : GoString) : ∀ n : Nat,
    (∃ c ∈ ds, ¬ isDigit c) → (parseUintLoop maxVal n ds).2 ≠ none := by
  induction ds with
  | nil => intro n h; obtain ⟨c, hc, _⟩ := h; cases hc
  | cons c cs ih =>
    intro n hbad
    unfold parseUintLoop
    by_cases hc : isDigit c
    · have hc2 : 48 ≤ c ∧ c ≤ 57 := hc
      simp only [hc2, and_self, if_true]
      have hbad2 : ∃ x ∈ cs, ¬ isDigit x := by
        obtain ⟨x, hx, hxd⟩ := hbad
        rcases List.mem_cons.mp hx with rfl | hx
        · exact absurd hc hxd
        · exact ⟨x, hx, hxd⟩
      split_ifs
      · simp
      · simp
      · simp
      · exact ih _ hbad2
    · have hc2 : ¬ (48 ≤ c ∧ c ≤ 57) := hc
      simp only [hc2, if_false]
      by_cases hl : 97 ≤ lower c ∧ lower c ≤ 122
      · have h10 : lower c - 97 + 10 ≥ 10 := by omega
        simp only [hl, and_self, if_true, h10]
        simp
      · simp only [hl, if_false]
        simp

theorem parseUintLoop_range_val (maxVal : Nat) (ds : GoString) : ∀ n : Nat,
    (parseUintLoop maxVal n ds).2 = some NumError.outOfRange →
    (parseUintLoop maxVal n ds).1 = maxVal := by
  induction ds with
  | nil => intro n h; simp [parseUintLoop] at h
  | cons c cs ih =>
    intro n h
    unfold parseUintLoop at h ⊢
    by_cases hc : 48 ≤ c ∧ c ≤ 57
    · simp only [hc, and_self, if_true] at h ⊢
      by_cases h10 : c - 48 ≥ 10
      · simp [h10] at h
      · simp only [h10, if_false] at h ⊢
        by_cases hcut : n ≥ (2 ^ 64 - 1) / 10 + 1
        · simp only [hcut, if_true]
        · simp only [hcut, if_false] at h ⊢
          by_cases hov : (n * 10 % 2 ^ 64 + (c - 48)) % 2 ^ 64 < n * 10 % 2 ^ 64 ∨
              (n * 10 % 2 ^ 64 + (c - 48)) % 2 ^ 64 > maxVal
          · simp only [hov, if_true]
          · simp only [hov, if_false] at h ⊢
            exact ih _ h
    · simp only [hc, if_false] at h ⊢
      by_cases hl : 97 ≤ lower c ∧ lower c ≤ 122
      · have h10 : lower c - 97 + 10 ≥ 10 := by omega
        simp only [hl, and_self, if_true, h10] at h
        simp at h
      · simp only [hl, if_false] at h
        simp at h

theorem ParseUint_bad (s : GoString) (h : s = [] ∨ ∃ c ∈ s, ¬ isDigit c) :
    (ParseUint s).2 ≠ none := by
  unfold ParseUint
  by_cases hs : s = []
  · simp [hs]
  · rw [if_neg hs]
    rcases h with h | h
    · exact absurd h hs
    · exact parseUintLoop_bad _ s 0 h

theorem ParseUint_range_val (s : GoString) (h : (ParseUint s).2 = some NumError.outOfRange) :
    (ParseUint s).1 = 2 ^ intSize - 1 := by
  unfold ParseUint at h ⊢
  by_cases hs : s = []
  · simp [hs] at h
  · rw [if_neg hs] at h ⊢
    exact parseUintLoop_range_val _ s 0 h

theorem ParseUint_err_cases (s : GoString) (h : (ParseUint s).2 ≠ none) :
    (ParseUint s).2 = some NumError.invalid ∨
      ((ParseUint s).2 = some NumError.outOfRange ∧ (ParseUint s).1 = 2 ^ intSize - 1) := by
  cases hr : (ParseUint s).2 with
  | none => exact absurd hr h
  | some e =>
    cases e with
    | invalid => exact Or.inl rfl
    | outOfRange => exact Or.inr ⟨rfl, ParseUint_range_val s hr⟩

theorem ParseInt_bad (s : GoString) (h : malformed s) : (ParseInt s).2 ≠ none := by
  cases s with
  | nil => simp [ParseInt]
  | cons c0 rest =>
    unfold malformed at h
    unfold ParseInt
    have key : ∀ (neg : Bool) (s1 : GoString), (s1 = [] ∨ ∃ c ∈ s1, ¬ isDigit c) →
        (if (ParseUint s1).2 = some NumError.invalid then ((0 : Int), some NumError.invalid)
          else if neg = false ∧ (ParseUint s1).1 ≥ 2 ^ (intSize - 1) then
            (((2 ^ (intSize - 1) - 1 : Nat) : Int), some NumError.outOfRange)
          else if neg = true ∧ (ParseUint s1).1 > 2 ^ (intSize - 1) then
            (-((2 ^ (intSize - 1) : Nat) : Int), some NumError.outOfRange)
          else (if neg = true then wrapInt64 (-toInt64 (ParseUint s1).1)
            else toInt64 (ParseUint s1).1, none)).2 ≠ none := by
      intro neg s1 hs1
      rcases ParseUint_err_cases s1 (ParseUint_bad s1 hs1) with he | ⟨he, hval⟩
      · simp [he]
      · have hge : (ParseUint s1).1 ≥ 2 ^ (intSize - 1) := by
          rw [hval]; show 2 ^ 64 - 1 ≥ 2 ^ 63; norm_num
        have hgt : (ParseUint s1).1 > 2 ^ (intSize - 1) := by
          rw [hval]; show 2 ^ 64 - 1 > 2 ^ 63; norm_num
        cases neg <;> simp [he, hge, hgt]
    by_cases h43 : c0 = 43
    · simp only [h43, or_true, if_true] at h ⊢
      have := key false rest h
      simpa using this
    · by_cases h45 : c0 = 45
      · simp only [h45, true_or, if_true] at h
        simp only [h43, h45, if_false, if_true]
        exact key true rest h
      · simp only [h43, h45, or_self, if_false] at h
        simp only [h43, h45, if_false]
        have := key false (c0 :: rest) (Or.inr h)
        simpa using this

theorem Atoi_bad (s : GoString) (hb : ∀ c ∈ s, c < 256) (h : malformed s) :
    (Atoi s).2 ≠ none := by
  unfold Atoi
  by_cases hlen : (intSize = 32 ∧ 0 < s.length ∧ s.length < 10) ∨
      (intSize = 64 ∧ 0 < s.length ∧ s.length < 19)
  · simp only [hlen, if_true]
    cases s with
    | nil => simp
    | cons c0 rest =>
      unfold malformed at h
      have hbr : ∀ c ∈ rest, c < 256 := fun x hx => hb x (List.mem_cons_of_mem _ hx)
      by_cases hs : c0 = 45 ∨ c0 = 43
      · simp only [hs, if_true] at h
        simp only [hs, decide_True, if_true, true_and]
        by_cases hr : rest.length < 1
        · simp [hr]
        · rw [if_neg hr]
          have hrne : rest ≠ [] := by
            intro he; rw [he] at hr; simp at hr
          rcases h with h | h
          · exact absurd h hrne
          · rw [atoiLoop_bad rest 0 hbr h]
            simp
      · simp only [hs, if_false] at h
        simp only [hs, decide_False, Bool.false_eq_true, if_false, false_and]
        rw [atoiLoop_bad (c0 :: rest) 0 hb h]
        simp
  · simp only [hlen, if_false]
    exact ParseInt_bad s h

theorem getDelay_of_atoi (environ : Environ) :
    getDelaySecondsFromEnv environ =
      if Getenv environ cancellationDelaySecondsEnv = [] then 5
      else if (Atoi (Getenv environ cancellationDelaySecondsEnv)).2 ≠ none then 5
      else if (Atoi (Getenv environ cancellationDelaySecondsEnv)).1 < 0 then 0
      else (Atoi (Getenv environ cancellationDelaySecondsEnv)).1 := by
  unfold getDelaySecondsFromEnv defaultCancellationDelaySeconds
  simp only [List.length_eq_zero]

theorem Atoi_nil : Atoi [] = (0, some NumError.invalid) := by decide

theorem Getenv_setenv (key : String) (v : GoString) : Getenv (setenv key v) key = v := by
  simp [Getenv, setenv]

/-- C3: `getDelaySecondsFromEnv` returns the default 5 when the variable is unset or empty
and when `strconv.Atoi` rejects its value, which it does for every value that is not an
optional sign followed by decimal digits; it returns `n` itself when the value parses to a
non-negative `n`, which every non-empty run of decimal digits denoting a number below
`2^63` does. -/
theorem getDelaySecondsFromEnv_default_or_parsed (environ : Environ) :
    (environ cancellationDelaySecondsEnv = none → getDelaySecondsFromEnv environ = 5) ∧
    (Getenv environ cancellationDelaySecondsEnv = [] → getDelaySecondsFromEnv environ = 5) ∧
    ((Atoi (Getenv environ cancellationDelaySecondsEnv)).2 ≠ none →
      getDelaySecondsFromEnv environ = 5) ∧
    (∀ n : Int, Atoi (Getenv environ cancellationDelaySecondsEnv) = (n, none) → 0 ≤ n →
      getDelaySecondsFromEnv environ = n) ∧
    ((∀ c ∈ Getenv environ cancellationDelaySecondsEnv, c < 256) →
      malformed (Getenv environ cancellationDelaySecondsEnv) →
      getDelaySecondsFromEnv environ = 5) ∧
    (Getenv environ cancellationDelaySecondsEnv ≠ [] →
      (∀ c ∈ Getenv environ cancellationDelaySecondsEnv, isDigit c) →
      decimalValue (Getenv environ cancellationDelaySecondsEnv) < 2 ^ 63 →
      getDelaySecondsFromEnv environ =
        (decimalValue (Getenv environ cancellationDelaySecondsEnv) : Int)) := by
  have hempty : Getenv environ cancellationDelaySecondsEnv = [] →
      getDelaySecondsFromEnv environ = 5 := by
    intro h
    rw [getDelay_of_atoi, if_pos h]
  have herr : (Atoi (Getenv environ cancellationDelaySecondsEnv)).2 ≠ none →
      getDelaySecondsFromEnv environ = 5 := by
    intro h
    rw [getDelay_of_atoi]
    by_cases h0 : Getenv environ cancellationDelaySecondsEnv = []
    · rw [if_pos h0]
    · rw [if_neg h0, if_pos h]
  have hok : ∀ n : Int, Atoi (Getenv environ cancellationDelaySecondsEnv) = (n, none) → 0 ≤ n →
      getDelaySecondsFromEnv environ = n := by
    intro n h hn
    have h0 : Getenv environ cancellationDelaySecondsEnv ≠ [] := by
      intro h0
      rw [h0, Atoi_nil] at h
      cases h
    rw [getDelay_of_atoi, if_neg h0, h]
    simp only [ne_eq, not_true_eq_false, if_false]
    rw [if_neg (by omega)]
  refine ⟨?_, hempty, herr, hok, ?_, ?_⟩
  · intro h
    apply hempty
    simp [Getenv, h]
  · intro hb hm
    exact herr (Atoi_bad _ hb hm)
  · intro hne hd hv
    exact hok _ (Atoi_digits _ hne hd hv) (by positivity)

/-- C3, at the inputs the claim names: unset gives 5, "0" gives 0 and "abc" gives 5. -/
theorem getDelaySecondsFromEnv_default_or_parsed_witness :
    getDelaySecondsFromEnv (fun _ => none) = 5 ∧
    getDelaySecondsFromEnv (setenv cancellationDelaySecondsEnv (ascii "0")) = 0 ∧
    getDelaySecondsFromEnv (setenv cancellationDelaySecondsEnv (ascii "abc")) = 5 :=
  ⟨(getDelaySecondsFromEnv_default_or_parsed (fun _ => none)).1 rfl,
   (getDelaySecondsFromEnv_default_or_parsed
      (setenv cancellationDelaySecondsEnv (ascii "0"))).2.2.2.1 0 (by decide) (by decide),
   (getDelaySecondsFromEnv_default_or_parsed
      (setenv cancellationDelaySecondsEnv (ascii "abc"))).2.2.1 (by decide)⟩

/-- C4, refuted as stated: "-9223372036854775809" is a minus sign followed by decimal
digits, the representation of a negative integer, and `getDelaySecondsFromEnv` returns the
default 5 for it, not 0. -/
theorem getDelaySecondsFromEnv_negative_out_of_range :
    (∀ c ∈ ascii "9223372036854775809", isDigit c) ∧
    getDelaySecondsFromEnv
      (setenv cancellationDelaySecondsEnv (45 :: ascii "9223372036854775809")) = 5 ∧
    getDelaySecondsFromEnv
      (setenv cancellationDelaySecondsEnv (45 :: ascii "9223372036854775809")) ≠ 0 := by
  decide

/-- C4, amended: for a value that is a minus sign followed by one or more decimal digits,
`getDelaySecondsFromEnv` returns 0 when the magnitude is at most `2^63` (the value fits
Go's 64-bit `int`), and the default 5 when it is larger (`strconv.Atoi` reports a range
error). -/
theorem getDelaySecondsFromEnv_negative (environ : Environ) (ds : GoString)
    (hval : Getenv environ cancellationDelaySecondsEnv = 45 :: ds) (hne : ds ≠ [])
    (hd : ∀ c ∈ ds, isDigit c) :
    (decimalValue ds ≤ 2 ^ 63 → getDelaySecondsFromEnv environ = 0) ∧
    (2 ^ 63 < decimalValue ds → getDelaySecondsFromEnv environ = 5) := by
  have h0 : Getenv environ cancellationDelaySecondsEnv ≠ [] := by rw [hval]; simp
  constructor
  · intro hv
    rw [getDelay_of_atoi, if_neg h0, hval, Atoi_neg_digits ds hne hd hv]
    simp only [ne_eq, not_true_eq_false, if_false]
    have hpos : (0 : Int) ≤ (decimalValue ds : Int) := by positivity
    by_cases hz : -(decimalValue ds : Int) < 0
    · rw [if_pos hz]
    · rw [if_neg hz]; omega
  · intro hv
    have herr := Atoi_neg_overflow ds hne hd hv
    rw [getDelay_of_atoi, if_neg h0, hval, if_pos (by rw [herr]; simp)]

/-- C4, amended, at "-3" (gives 0) and at "-9223372036854775809" (gives 5). -/
theorem getDelaySecondsFromEnv_negative_witness :
    getDelaySecondsFromEnv (setenv cancellationDelaySecondsEnv (ascii "-3")) = 0 ∧
    getDelaySecondsFromEnv
      (setenv cancellationDelaySecondsEnv (ascii "-9223372036854775809")) = 5 :=
  ⟨(getDelaySecondsFromEnv_negative (setenv cancellationDelaySecondsEnv (ascii "-3"))
      (ascii "3") (by decide) (by decide) (by decide)).1 (by decide),
   (getDelaySecondsFromEnv_negative
      (setenv cancellationDelaySecondsEnv (ascii "-9223372036854775809"))
      (ascii "9223372036854775809") (by decide) (by decide) (by decide)).2 (by decide)⟩

theorem isServiceLine_eq (text : GoString) :
    isServiceLine text = (isSystemdLine text && thirdFieldIsService text) := by
  unfold isServiceLine isSystemdLine thirdFieldIsService
  rcases Split text 58 with _ | ⟨f0, _ | ⟨f1, _ | ⟨f2, fs⟩⟩⟩ <;> simp

theorem scanLoop_cons (text : GoString) (err : Option FileError)
    (rest : List (GoString × Option FileError)) (finalErr : Option FileError) :
    scanLoop ((text, err) :: rest) finalErr =
      if isSystemdLine text then (thirdFieldIsService text, err) else scanLoop rest finalErr := by
  rw [scanLoop]
  unfold isSystemdLine thirdFieldIsService
  rcases Split text 58 with _ | ⟨f0, _ | ⟨f1, _ | ⟨f2, fs⟩⟩⟩
  · simp
  · simp
  · simp
  · by_cases h : f1 = ascii "name=systemd" <;> simp [h]

theorem scanLoop_skip (pre : List (GoString × Option FileError))
    (hpre : ∀ t ∈ pre, isSystemdLine t.1 = false)
    (rest : List (GoString × Option FileError)) (finalErr : Option FileError) :
    scanLoop (pre ++ rest) finalErr = scanLoop rest finalErr := by
  induction pre with
  | nil => rfl
  | cons t ts ih =>
    obtain ⟨text, err⟩ := t
    have h1 : isSystemdLine text = false := hpre (text, err) (List.mem_cons_self _ _)
    rw [List.cons_append, scanLoop_cons, h1]
    simp only [Bool.false_eq_true, if_false]
    exact ih (fun x hx => hpre x (List.mem_cons_of_mem _ hx))

theorem scanLoop_none (toks : List (GoString × Option FileError))
    (h : ∀ t ∈ toks, isSystemdLine t.1 = false) (finalErr : Option FileError) :
    scanLoop toks finalErr = (false, finalErr) := by
  have := scanLoop_skip toks h [] finalErr
  rw [List.append_nil] at this
  rw [this]
  rfl

theorem scanLoop_fst (toks : List (GoString × Option FileError)) (finalErr : Option FileError) :
    (scanLoop toks finalErr).1 =
      match (toks.map Prod.fst).find? isSystemdLine with
      | some l => thirdFieldIsService l
      | none => false := by
  induction toks with
  | nil => rfl
  | cons t ts ih =>
    obtain ⟨text, err⟩ := t
    rw [scanLoop_cons, List.map_cons, List.find?_cons]
    by_cases h : isSystemdLine text = true
    · simp [h]
    · have h2 : isSystemdLine text = false := by simpa using h
      simp only [h2, Bool.false_eq_true, if_false]
      exact ih

theorem scanLoop_clean_snd (lines : List GoString) :
    (scanLoop (Scanner.clean lines).tokens (Scanner.clean lines).finalErr).2 = none := by
  unfold Scanner.clean
  induction lines with
  | nil => rfl
  | cons l ls ih =>
    simp only [List.map_cons]
    rw [scanLoop_cons]
    by_cases h : isSystemdLine l = true
    · simp [h]
    · simp only [h, if_false]
      exact ih

theorem IsSystemdService_cgroup (p : Platform) (sc : Scanner) (hos : p.goos = "linux")
    (hj : Getenv p.environ "JOURNAL_STREAM" = []) (hc : p.cgroup = Except.ok sc) :
    IsSystemdService p =
      if (scanLoop sc.tokens sc.finalErr).2 ≠ none then false
      else (scanLoop sc.tokens sc.finalErr).1 := by
  unfold IsSystemdService
  simp [hos, hj, hc]

theorem find_first_systemd (before after : List GoString) (l : GoString)
    (hb : ∀ x ∈ before, isSystemdLine x = false) (hl : isSystemdLine l = true) :
    (before ++ l :: after).find? isSystemdLine = some l := by
  rw [List.find?_eq_some]
  refine ⟨hl, before, after, rfl, ?_⟩
  intro a ha
  simp [hb a ha]

theorem IsSystemdService_clean (p : Platform) (lines : List GoString) (hos : p.goos = "linux")
    (hj : Getenv p.environ "JOURNAL_STREAM" = [])
    (hc : p.cgroup = Except.ok (Scanner.clean lines)) :
    IsSystemdService p =
      match lines.find? isSystemdLine with
      | some l => thirdFieldIsService l
      | none => false := by
  rw [IsSystemdService_cgroup p (Scanner.clean lines) hos hj hc]
  rw [scanLoop_clean_snd, scanLoop_fst]
  simp [Scanner.clean, Function.comp_def]

/-- C5, refuted as stated: a cgroup file read without failure whose second line has the
second field "name=systemd" and a third field ending with ".service", for which
`IsSystemdService` returns false, because an earlier "name=systemd" line ends with
".scope". -/
theorem IsSystemdService_some_service_line_false :
    (∃ l ∈ [ascii "1:name=systemd:/user.slice/session-2.scope",
            ascii "4:name=systemd:/system.slice/foo.service"], isServiceLine l = true) ∧
    IsSystemdService
      (linuxWithCgroup [ascii "1:name=systemd:/user.slice/session-2.scope",
                        ascii "4:name=systemd:/system.slice/foo.service"]) = false := by
  decide

/-- C5, amended: on Linux with `JOURNAL_STREAM` empty and the cgroup file read without
failure, `IsSystemdService` returns true if and only if the file contains a line whose
second field equals "name=systemd" and whose third field ends with ".service", and no
line before it has at least three fields with the second one equal to "name=systemd". -/
theorem IsSystemdService_iff_first_systemd_line_is_service (p : Platform)
    (lines : List GoString) (hos : p.goos = "linux")
    (hj : Getenv p.environ "JOURNAL_STREAM" = [])
    (hc : p.cgroup = Except.ok (Scanner.clean lines)) :
    IsSystemdService p = true ↔
      ∃ before l after, lines = before ++ l :: after ∧
        (∀ x ∈ before, isSystemdLine x = false) ∧ isServiceLine l = true := by
  rw [IsSystemdService_clean p lines hos hj hc]
  constructor
  · intro h
    cases hf : lines.find? isSystemdLine with
    | none => rw [hf] at h; cases h
    | some l =>
      rw [hf] at h
      obtain ⟨hl, before, after, hdec, hb⟩ := List.find?_eq_some.mp hf
      refine ⟨before, l, after, hdec, ?_, ?_⟩
      · intro x hx
        simpa using hb x hx
      · rw [isServiceLine_eq, hl]
        simpa using h
  · rintro ⟨before, l, after, hdec, hb, hl⟩
    rw [isServiceLine_eq, Bool.and_eq_true] at hl
    rw [hdec, find_first_systemd before after l hb hl.1]
    exact hl.2

/-- C5, amended, at the file the claim names: the single line
"4:name=systemd:/system.slice/foo.service" gives true. -/
theorem IsSystemdService_iff_first_systemd_line_is_service_witness :
    IsSystemdService (linuxWithCgroup [ascii "4:name=systemd:/system.slice/foo.service"]) = true :=
  (IsSystemdService_iff_first_systemd_line_is_service
      (linuxWithCgroup [ascii "4:name=systemd:/system.slice/foo.service"])
      [ascii "4:name=systemd:/system.slice/foo.service"] rfl rfl rfl).mpr
      ⟨[], ascii "4:name=systemd:/system.slice/foo.service", [], rfl, by decide, by decide⟩

/-- C6: with `JOURNAL_STREAM` empty, `IsSystemdService` returns false, a plain boolean
and no error, when `/proc/self/cgroup` cannot be opened, and whenever the scanner reports
an error once the loop is left: in particular when the scan ends in an error without a
"name=systemd" line having been met, and when the scanner is in error at the moment the
first "name=systemd" line is delivered, whatever that line ends with. -/
theorem IsSystemdService_false_on_failure (p : Platform)
    (hj : Getenv p.environ "JOURNAL_STREAM" = []) :
    (∀ e, p.cgroup = Except.error e → IsSystemdService p = false) ∧
    (∀ sc, p.cgroup = Except.ok sc → (scanLoop sc.tokens sc.finalErr).2 ≠ none →
      IsSystemdService p = false) ∧
    (∀ toks e, p.cgroup = Except.ok { tokens := toks, finalErr := some e } →
      (∀ t ∈ toks, isSystemdLine t.1 = false) → IsSystemdService p = false) ∧
    (∀ before line e after fin,
      p.cgroup = Except.ok { tokens := before ++ (line, some e) :: after, finalErr := fin } →
      (∀ t ∈ before, isSystemdLine t.1 = false) → isSystemdLine line = true →
      IsSystemdService p = false) := by
  have hopen : ∀ e, p.cgroup = Except.error e → IsSystemdService p = false := by
    intro e hc
    unfold IsSystemdService
    simp [hj, hc]
  have hscan : ∀ sc, p.cgroup = Except.ok sc → (scanLoop sc.tokens sc.finalErr).2 ≠ none →
      IsSystemdService p = false := by
    intro sc hc herr
    unfold IsSystemdService
    simp [hj, hc, herr]
  refine ⟨hopen, hscan, ?_, ?_⟩
  · intro toks e hc hno
    apply hscan _ hc
    show (scanLoop toks (some e)).2 ≠ none
    rw [scanLoop_none toks hno]
    simp
  · intro before line e after fin hc hb hl
    apply hscan _ hc
    show (scanLoop (before ++ (line, some e) :: after) fin).2 ≠ none
    rw [scanLoop_skip before hb, scanLoop_cons, hl]
    simp

/-- C6, at a missing file and at a scanner that fails while it delivers the line
"4:name=systemd:/system.slice/foo.service": both give false. -/
theorem IsSystemdService_false_on_failure_witness :
    IsSystemdService missingCgroup = false ∧ IsSystemdService failingCgroup = false :=
  ⟨(IsSystemdService_false_on_failure missingCgroup rfl).1 _ rfl,
   (IsSystemdService_false_on_failure failingCgroup rfl).2.2.2 [] _ _ [] _ rfl
      (by simp) (by decide)⟩

/-- C7: `IsSystemdService` looks at the platform first, then at `JOURNAL_STREAM`, and only
then at the cgroup file: on Linux every non-empty value of `JOURNAL_STREAM` gives true,
whatever the cgroup file holds and whether or not it can be opened or read; on every
platform other than Linux the result is false, whatever `JOURNAL_STREAM` and the cgroup
file are. -/
theorem IsSystemdService_journal_stream_first (goos : String) (environ : Environ)
    (cgroup : Except FileError Scanner) :
    (goos = "linux" → Getenv environ "JOURNAL_STREAM" ≠ [] →
      IsSystemdService { goos := goos, environ := environ, cgroup := cgroup } = true) ∧
    (goos ≠ "linux" →
      IsSystemdService { goos := goos, environ := environ, cgroup := cgroup } = false) := by
  constructor
  · intro hos hj
    unfold IsSystemdService
    have : (Getenv environ "JOURNAL_STREAM").length > 0 := List.length_pos.mpr hj
    simp [hos, this]
  · intro hos
    unfold IsSystemdService
    simp [hos]

/-- C7, on Linux with `JOURNAL_STREAM` set and an unreadable cgroup file (true), and on
Darwin with `JOURNAL_STREAM` set and a cgroup file naming a service (false). -/
theorem IsSystemdService_journal_stream_first_witness :
    IsSystemdService
      { goos := "linux"
        environ := setenv "JOURNAL_STREAM" (ascii "8:12345")
        cgroup := Except.error { msg := "permission denied" } } = true ∧
    IsSystemdService
      { goos := "darwin"
        environ := setenv "JOURNAL_STREAM" (ascii "8:12345")
        cgroup := Except.ok
          (Scanner.clean [ascii "4:name=systemd:/system.slice/foo.service"]) } = false :=
  ⟨(IsSystemdService_journal_stream_first "linux" (setenv "JOURNAL_STREAM" (ascii "8:12345"))
      (Except.error { msg := "permission denied" })).1 rfl (by decide),
   (IsSystemdService_journal_stream_first "darwin" (setenv "JOURNAL_STREAM" (ascii "8:12345"))
      (Except.ok (Scanner.clean [ascii "4:name=systemd:/system.slice/foo.service"]))).2
      (by decide)⟩

/-- C10: when the cgroup file is consulted (Linux, `JOURNAL_STREAM` empty, the file
opened) and the scanner reports no error, the result of `IsSystemdService` is decided by
the first line that has at least three colon-separated fields and second field
"name=systemd": it is true exactly when that line's third field ends with ".service" and
false when there is no such line; the lines after that first line are ignored, so a later
".service" line does not turn a ".scope" result into true. -/
theorem IsSystemdService_first_systemd_line_decides (p : Platform) (sc : Scanner)
    (hos : p.goos = "linux") (hj : Getenv p.environ "JOURNAL_STREAM" = [])
    (hc : p.cgroup = Except.ok sc) (herr : (scanLoop sc.tokens sc.finalErr).2 = none) :
    (IsSystemdService p =
      match (sc.tokens.map Prod.fst).find? isSystemdLine with
      | some l => thirdFieldIsService l
      | none => false) ∧
    (∀ before l after, sc.tokens.map Prod.fst = before ++ l :: after →
      (∀ x ∈ before, isSystemdLine x = false) → isSystemdLine l = true →
      IsSystemdService p = thirdFieldIsService l) ∧
    ((∀ x ∈ sc.tokens.map Prod.fst, isSystemdLine x = false) → IsSystemdService p = false) := by
  have hmain : IsSystemdService p =
      match (sc.tokens.map Prod.fst).find? isSystemdLine with
      | some l => thirdFieldIsService l
      | none => false := by
    rw [IsSystemdService_cgroup p sc hos hj hc, herr, scanLoop_fst]
    simp
  refine ⟨hmain, ?_, ?_⟩
  · intro before l after hdec hb hl
    rw [hmain, hdec, find_first_systemd before after l hb hl]
  · intro hno
    have : (sc.tokens.map Prod.fst).find? isSystemdLine = none := by
      rw [List.find?_eq_none]
      intro x hx
      simp [hno x hx]
    rw [hmain, this]

/-- C10, at a file whose first "name=systemd" line ends with ".scope" and whose next line
is a "name=systemd" line ending with ".service": the result is false, the third field of
the first of the two not ending with ".service". -/
theorem IsSystemdService_first_systemd_line_decides_witness :
    IsSystemdService
      (linuxWithCgroup [ascii "12:pids:/user.slice",
                        ascii "1:name=systemd:/user.slice/session-2.scope",
                        ascii "0:name=systemd:/system.slice/foo.service"]) =
      thirdFieldIsService (ascii "1:name=systemd:/user.slice/session-2.scope") ∧
    thirdFieldIsService (ascii "1:name=systemd:/user.slice/session-2.scope") = false :=
  ⟨(IsSystemdService_first_systemd_line_decides
      (linuxWithCgroup [ascii "12:pids:/user.slice",
                        ascii "1:name=systemd:/user.slice/session-2.scope",
                        ascii "0:name=systemd:/system.slice/foo.service"])
      (Scanner.clean [ascii "12:pids:/user.slice",
                        ascii "1:name=systemd:/user.slice/session-2.scope",
                        ascii "0:name=systemd:/system.slice/foo.service"])
      rfl rfl rfl (by decide)).2.1
      [ascii "12:pids:/user.slice"] (ascii "1:name=systemd:/user.slice/session-2.scope")
      [ascii "0:name=systemd:/system.slice/foo.service"] (by decide) (by decide) (by decide),
   by decide⟩

theorem Cancel_of_cancelled {τ : Type} (e : Environment τ) (err : GoError)
    (h : e.cancelled = true) : Cancel e err = (false, e) := by
  unfold Cancel Environment.Cancel
  rw [if_pos h]

theorem Cancel_first {τ : Type} (e : Environment τ) (err : GoError)
    (h : e.cancelled = false) :
    Cancel e err =
      (true, { e with cancelled := true, storedError := err, rootCancelled := true }) := by
  unfold Cancel Environment.Cancel
  simp [h]

theorem cancelAll_of_cancelled {τ : Type} (errs : List GoError) (e : Environment τ)
    (h : e.cancelled = true) : cancelAll e errs = (List.replicate errs.length false, e) := by
  induction errs with
  | nil => rfl
  | cons err errs ih =>
    unfold cancelAll
    simp only [Cancel_of_cancelled e err h, ih, List.length_cons, List.replicate_succ]

theorem cancelledWith_apply {τ : Type} (e : Environment τ) (err : GoError) (ev : Event τ)
    (h : cancelledWith e err) : cancelledWith (Event.apply e ev) err := by
  obtain ⟨hc, hs⟩ := h
  cases ev with
  | go f =>
    show cancelledWith (e.Go f) err
    unfold Environment.Go
    simp only [hc, Bool.or_true, if_true]
    exact ⟨hc, hs⟩
  | stop => exact ⟨hc, hs⟩
  | cancel err2 =>
    show cancelledWith (Cancel e err2).2 err
    rw [Cancel_of_cancelled e err2 hc]
    exact ⟨hc, hs⟩
  | taskReturn err2 =>
    show cancelledWith (e.taskReturn err2) err
    unfold Environment.taskReturn
    cases err2 with
    | none => exact ⟨hc, hs⟩
    | some msg =>
      unfold Environment.Cancel
      simp only [hc, if_true]
      exact ⟨rfl, hs⟩

theorem cancelledWith_runEvents {τ : Type} (evs : List (Event τ)) (e : Environment τ)
    (err : GoError) (h : cancelledWith e err) : cancelledWith (runEvents e evs) err := by
  induction evs generalizing e with
  | nil => exact h
  | cons ev evs ih => exact ih _ (cancelledWith_apply e err ev h)

theorem Wait_of_cancelledWith {τ : Type} (e : Environment τ) (err : GoError)
    (h : cancelledWith e err) :
    Wait e = if e.outstanding = 0 then WaitResult.returned err else WaitResult.blocked := by
  obtain ⟨hc, hs⟩ := h
  unfold Wait Environment.Wait Environment.doneSignal
  simp [hc, hs]

theorem outstanding_taskReturn {τ : Type} (e : Environment τ) (err : GoError) :
    (e.taskReturn err).outstanding = e.outstanding - 1 := by
  unfold Environment.taskReturn Environment.Cancel
  cases err with
  | none => rfl
  | some msg =>
    cases hc : e.cancelled <;> simp

theorem outstanding_taskReturns {τ : Type} (errs : List GoError) (e : Environment τ) :
    (runEvents e (errs.map Event.taskReturn)).outstanding = e.outstanding - errs.length := by
  induction errs generalizing e with
  | nil => rfl
  | cons err errs ih =>
    show (runEvents (e.taskReturn err) (errs.map Event.taskReturn)).outstanding = _
    rw [ih, outstanding_taskReturn, List.length_cons]
    omega

/-- C1: on an environment that has not been cancelled, of any sequence of `Cancel` calls
taken in their order of arrival exactly the first returns true and every later one returns
false and leaves the environment as the first call left it; from then on, whatever else
happens to the environment, `Wait` returns nothing but the error passed to that first
call (nil included): it returns it at once when no task is outstanding, and in any case
once the outstanding tasks have returned, whatever errors they return. -/
theorem cancel_first_call_wins {τ : Type} (e : Environment τ) (err : GoError)
    (later : List GoError) (h : e.cancelled = false) :
    (cancelAll e (err :: later)).1 = true :: List.replicate later.length false ∧
    (cancelAll e (err :: later)).2 = (Cancel e err).2 ∧
    ((cancelAll e (err :: later)).2.outstanding = 0 →
      Wait (cancelAll e (err :: later)).2 = WaitResult.returned err) ∧
    (∀ evs x, Wait (runEvents (cancelAll e (err :: later)).2 evs) = WaitResult.returned x →
      x = err) ∧
    (∀ returns : List GoError, returns.length = e.outstanding →
      Wait (runEvents (cancelAll e (err :: later)).2 (returns.map Event.taskReturn)) =
        WaitResult.returned err) := by
  have hfirst := Cancel_first e err h
  have hc : (Cancel e err).2.cancelled = true := by rw [hfirst]
  have hall : cancelAll e (err :: later) =
      (true :: List.replicate later.length false, (Cancel e err).2) := by
    show ((Cancel e err).1 :: (cancelAll (Cancel e err).2 later).1,
      (cancelAll (Cancel e err).2 later).2) = _
    rw [cancelAll_of_cancelled later _ hc, hfirst]
  have hcw : cancelledWith (Cancel e err).2 err := by
    rw [hfirst]; exact ⟨rfl, rfl⟩
  have hout : (Cancel e err).2.outstanding = e.outstanding := by rw [hfirst]
  rw [hall]
  refine ⟨rfl, rfl, ?_, ?_, ?_⟩
  · intro h0
    rw [Wait_of_cancelledWith _ err hcw, if_pos h0]
  · intro evs x hx
    rw [Wait_of_cancelledWith _ err (cancelledWith_runEvents evs _ err hcw)] at hx
    by_cases h0 : (runEvents (Cancel e err).2 evs).outstanding = 0
    · rw [if_pos h0] at hx
      cases hx
      rfl
    · rw [if_neg h0] at hx
      cases hx
  · intro returns hlen
    rw [Wait_of_cancelledWith _ err (cancelledWith_runEvents _ _ err hcw)]
    rw [outstanding_taskReturns, hout, hlen, Nat.sub_self, if_pos rfl]

/-- C1, on a new environment: `Cancel(nil)`, then `Cancel` with two errors; the calls
return true, false, false and `Wait` returns nil. -/
theorem cancel_first_call_wins_witness :
    (cancelAll (NewEnvironment Nat) [none, some "e2", some "e3"]).1 = [true, false, false] ∧
    Wait (cancelAll (NewEnvironment Nat) [none, some "e2", some "e3"]).2 =
      WaitResult.returned none :=
  ⟨(cancel_first_call_wins (NewEnvironment Nat) none [some "e2", some "e3"] rfl).1,
   (cancel_first_call_wins (NewEnvironment Nat) none [some "e2", some "e3"] rfl).2.2.1 rfl⟩

theorem closed_apply {τ : Type} (e : Environment τ) (ev : Event τ) (h : closed e) :
    closed (Event.apply e ev) := by
  cases ev with
  | go f =>
    show closed (e.Go f)
    unfold Environment.Go
    have : (e.stopped || e.cancelled) = true := by
      rcases h with h | h <;> simp [h]
    rw [if_pos this]
    exact h
  | stop => exact Or.inl rfl
  | cancel err =>
    show closed (e.Cancel err).2
    unfold Environment.Cancel
    by_cases hc : e.cancelled = true
    · rw [if_pos hc]; exact h
    · rw [if_neg hc]; exact Or.inr rfl
  | taskReturn err =>
    show closed (e.taskReturn err)
    unfold Environment.taskReturn
    cases err with
    | none => exact h
    | some msg =>
      unfold Environment.Cancel
      by_cases hc : e.cancelled = true
      · simp only [hc, if_true]; exact Or.inr rfl
      · simp only [hc, if_false]; exact Or.inr rfl

theorem closed_runEvents {τ : Type} (evs : List (Event τ)) (e : Environment τ) (h : closed e) :
    closed (runEvents e evs) := by
  induction evs generalizing e with
  | nil => exact h
  | cons ev evs ih => exact ih _ (closed_apply e ev h)

theorem closed_Cancel {τ : Type} (e : Environment τ) (err : GoError) :
    closed (Cancel e err).2 := by
  unfold Cancel Environment.Cancel
  by_cases hc : e.cancelled = true
  · rw [if_pos hc]; exact Or.inr hc
  · rw [if_neg hc]; exact Or.inr rfl

theorem Go_of_closed {τ : Type} (e : Environment τ) (f : τ) (h : closed e) : Go e f = e := by
  unfold Go Environment.Go
  have : (e.stopped || e.cancelled) = true := by
    rcases h with h | h <;> simp [h]
  rw [if_pos this]

/-- C2: once `Stop` or `Cancel` has returned on an environment, and whatever events follow
(further `Go`, `Stop` and `Cancel` calls, tasks returning), a call `Go(f)` leaves the
environment exactly as it was: `f` is not added to the tasks started and the count of
outstanding tasks is unchanged, whereas on a new environment `Go(f)` starts `f` and counts
it. -/
theorem go_after_stop_or_cancel_does_nothing {τ : Type} (e : Environment τ) (err : GoError)
    (evs : List (Event τ)) (f : τ) :
    Go (runEvents (Stop e) evs) f = runEvents (Stop e) evs ∧
    Go (runEvents (Cancel e err).2 evs) f = runEvents (Cancel e err).2 evs ∧
    (Go (runEvents (Stop e) evs) f).launched = (runEvents (Stop e) evs).launched ∧
    (Go (runEvents (Stop e) evs) f).outstanding = (runEvents (Stop e) evs).outstanding ∧
    (Go (runEvents (Cancel e err).2 evs) f).launched = (runEvents (Cancel e err).2 evs).launched ∧
    (Go (runEvents (Cancel e err).2 evs) f).outstanding =
      (runEvents (Cancel e err).2 evs).outstanding ∧
    ((Go (NewEnvironment τ) f).launched = [f] ∧ (Go (NewEnvironment τ) f).outstanding = 1) := by
  have hs : closed (runEvents (Stop e) evs) := closed_runEvents evs _ (Or.inl rfl)
  have hc : closed (runEvents (Cancel e err).2 evs) := closed_runEvents evs _ (closed_Cancel e err)
  have h1 := Go_of_closed _ f hs
  have h2 := Go_of_closed _ f hc
  exact ⟨h1, h2, by rw [h1], by rw [h1], by rw [h2], by rw [h2], rfl, rfl⟩

theorem getDelaySecondsFromEnv_nonneg (environ : Environ) :
    0 ≤ getDelaySecondsFromEnv environ := by
  rw [getDelay_of_atoi]
  split_ifs <;> omega

theorem getDelay_setenv_digits (ds : GoString) (hne : ds ≠ []) (hd : ∀ c ∈ ds, isDigit c)
    (hv : decimalValue ds < 2 ^ 63) :
    getDelaySecondsFromEnv (setenv cancellationDelaySecondsEnv ds) = (decimalValue ds : Int) := by
  rw [getDelay_of_atoi, Getenv_setenv, if_neg hne, Atoi_digits ds hne hd hv]
  simp only [ne_eq, not_true_eq_false, if_false]
  rw [if_neg (by have : (0 : Int) ≤ (decimalValue ds : Int) := by positivity
                 omega)]

/-- C8, at the failing input `CANCELLATION_DELAY_SECONDS=9223372037`: the value parses to
the non-negative integer 9223372037, the duration handed to `time.Sleep` is the wrapped
product -9223372036709551616 ns, not 9223372037 * 10^9 ns, and `Cancel(errSignaled)` is
called at the very moment the signal is received. -/
theorem handleSignal_delay_overflows :
    getDelaySecondsFromEnv (setenv cancellationDelaySecondsEnv (ascii "9223372037")) =
      9223372037 ∧
    sleepDuration 9223372037 = -9223372036709551616 ∧
    sleepDuration 9223372037 ≠ 9223372037 * 1000000000 ∧
    ∀ (now : Int) (env : Environment Nat),
      handleSignal (setenv cancellationDelaySecondsEnv (ascii "9223372037")) now env =
        (now, Cancel env errSignaled) := by
  have hdelay : getDelaySecondsFromEnv (setenv cancellationDelaySecondsEnv (ascii "9223372037")) =
      9223372037 := by
    rw [getDelay_setenv_digits (ascii "9223372037") (by decide) (by decide) (by decide)]
    decide
  have hdur : sleepDuration 9223372037 = -9223372036709551616 := by decide
  refine ⟨hdelay, hdur, by decide, ?_⟩
  intro now env
  unfold handleSignal
  simp only [hdelay, hdur]
  rfl

/-- The signal bridge within range: whenever the delay read from the environment is at
most 9223372036 seconds, the goroutine of `handleSignal` calls `Cancel(errSignaled)`
exactly `delay * 10^9` nanoseconds after the signal was received, and the result is that
of `Cancel` with the sentinel error. -/
theorem handleSignal_sleeps_delay_seconds {τ : Type} (environ : Environ) (now : Int)
    (env : Environment τ) (h : getDelaySecondsFromEnv environ ≤ 9223372036) :
    handleSignal environ now env =
      (now + getDelaySecondsFromEnv environ * 1000000000, Cancel env errSignaled) := by
  have h0 := getDelaySecondsFromEnv_nonneg environ
  unfold handleSignal Sleep sleepDuration Second Cancel
  have e1 : wrapInt64 (getDelaySecondsFromEnv environ) = getDelaySecondsFromEnv environ :=
    wrapInt64_of_range _ (by omega) (by omega)
  have e2 : wrapInt64 (getDelaySecondsFromEnv environ * 1000000000) =
      getDelaySecondsFromEnv environ * 1000000000 :=
    wrapInt64_of_range _ (by omega) (by omega)
  simp only [e1, e2]
  by_cases hz : getDelaySecondsFromEnv environ * 1000000000 ≤ 0
  · rw [if_pos hz]
    have : getDelaySecondsFromEnv environ * 1000000000 = 0 := by omega
    rw [this, add_zero]
  · rw [if_neg hz]

/-- The signal bridge at `CANCELLATION_DELAY_SECONDS=30`, the signal arriving at time 0 on
a new environment: `Cancel` is called 30 * 10^9 ns later. -/
theorem handleSignal_sleeps_delay_seconds_witness :
    (handleSignal (setenv cancellationDelaySecondsEnv (ascii "30")) 0 (NewEnvironment Nat)).1 =
      30000000000 := by
  rw [handleSignal_sleeps_delay_seconds (setenv cancellationDelaySecondsEnv (ascii "30")) 0
    (NewEnvironment Nat) (by decide)]
  decide

theorem received_append {α : Type} (Log : Logger α) (s t : Sink) (v : List (AnyVal α)) :
    received (Log ++ [(s, v)]) t = if t = s then received Log t ++ [v] else received Log t := by
  unfold received
  by_cases h : s = t
  · subst h
    simp [List.filter_append]
  · have h2 : ¬ t = s := fun h3 => h h3.symm
    simp [List.filter_append, h, h2]

/-- C9: for every message and argument map, each of `Error`, `Warn`, `Debug` and `Info`
makes exactly one call on the configured logger, with the record built by `get`: `Error`
calls `ErrorS`, `Debug` calls `DebugS`, `Info` calls `InfoS`, and `Warn` calls `DebugS`;
what `WarnS` has received is the same after `Warn` as before. -/
theorem log_calls_one_sink {α : Type} (Log : Logger α) (msg : String)
    (args : List (String × α)) :
    Error Log msg args = Log ++ [(Sink.ErrorS, get msg args)] ∧
    Warn Log msg args = Log ++ [(Sink.DebugS, get msg args)] ∧
    Debug Log msg args = Log ++ [(Sink.DebugS, get msg args)] ∧
    Info Log msg args = Log ++ [(Sink.InfoS, get msg args)] ∧
    (∀ s, received (Error Log msg args) s =
      if s = Sink.ErrorS then received Log s ++ [get msg args] else received Log s) ∧
    (∀ s, received (Warn Log msg args) s =
      if s = Sink.DebugS then received Log s ++ [get msg args] else received Log s) ∧
    (∀ s, received (Debug Log msg args) s =
      if s = Sink.DebugS then received Log s ++ [get msg args] else received Log s) ∧
    (∀ s, received (Info Log msg args) s =
      if s = Sink.InfoS then received Log s ++ [get msg args] else received Log s) ∧
    received (Warn Log msg args) Sink.WarnS = received Log Sink.WarnS ∧
    (get msg args).take 2 = [AnyVal.str "message", AnyVal.str msg] := by
  refine ⟨rfl, rfl, rfl, rfl, fun s => received_append _ _ _ _, fun s => received_append _ _ _ _,
    fun s => received_append _ _ _ _, fun s => received_append _ _ _ _, ?_, ?_⟩
  · show received (Log ++ [(Sink.DebugS, get msg args)]) Sink.WarnS = _
    rw [received_append, if_neg (by decide)]
  · unfold get
    generalize hv : ([] ++ [AnyVal.str "message", AnyVal.str msg] : List (AnyVal α)) = v0
    have key : ∀ (l : List (String × α)) (v : List (AnyVal α)), 2 ≤ v.length →
        (l.foldl (fun v kv => v ++ [AnyVal.str kv.1, AnyVal.val kv.2]) v).take 2 = v.take 2 := by
      intro l
      induction l with
      | nil => intro v _; rfl
      | cons kv l ih =>
        intro v hlen
        rw [List.foldl_cons, ih _ (by simp)]
        rw [List.take_append_of_le_length hlen]
    rw [key args v0 (by rw [← hv]; simp), ← hv]
    rfl

end Aptutil
